import Mathlib

/-!
Shallow embedding of the two algorithmic components of the
`simple-nextjs-starter` repository:

* the sequence grouper `groupBySequence` / `matchesTag`
  (`src/components/utils.ts`), and
* the remark bracket-link-to-Button transform
  (`tools/remark/remark-parse-buttons.mjs`).

JavaScript strings are modelled as Lean `String`s; the string helpers the
source relies on (`split`, `trim`, template literals, truthiness of `""`
and `undefined`) are embedded below with kernel-friendly structural
definitions over `List Char`.
-/

namespace Starter

/-- Embeds `str.split(sep)` for a single-character separator: JavaScript
returns the list of (possibly empty) pieces between occurrences of the
separator, with `"".split(sep) = [""]`. -/
def splitOnChar (sep : Char) : List Char → List (List Char)
  | [] => [[]]
  | c :: cs =>
    let r := splitOnChar sep cs
    if c = sep then [] :: r
    else
      match r with
      | [] => [[c]]
      | p :: ps => (c :: p) :: ps

/-- Whitespace removal at both ends of a character list, embedding
`String.prototype.trim()` (restricted to the ASCII whitespace that can
occur in the strings this repository manipulates). -/
def trimChars (l : List Char) : List Char :=
  ((l.dropWhile Char.isWhitespace).reverse.dropWhile Char.isWhitespace).reverse

/-- Embeds `str.trim()`. -/
def jsTrim (s : String) : String :=
  (trimChars s.toList).asString

/-- Embeds the JavaScript string fallback `a || b`: the empty string is
falsy, every other string is truthy. -/
def jsStringOr (a b : String) : String :=
  if a = "" then b else a

/-! ## Sequence grouper (`src/components/utils.ts`) -/

/-- Possible values of `el.type` for an element in the array produced by
`Children.toArray`: an intrinsic tag (a string), a function component
(whose `displayName` property may be absent, modelled by `none`, and whose
`name` is always a string, possibly empty), or a non-function object type
such as one produced by `React.memo`/`React.forwardRef` (property reads
succeed and yield `none` when the property is absent). -/
inductive ElemType where
  | str (tag : String)
  | fnc (displayName : Option String) (name : String)
  | obj (displayName : Option String) (name : Option String)
deriving DecidableEq

/-- An entry of the array `Children.toArray(children)`: either a text
child (a string or number, which has no `type` property — reading
`el.type` yields `undefined`), or a React element carrying a `type`.
`Children.toArray` has already removed `null`/`undefined`/boolean
children, so those do not occur as entries. -/
inductive Child where
  | textNode (value : String)
  | elem (ty : ElemType)
deriving DecidableEq

/-- Embeds `matchesTag` (utils.ts lines 5-10):
`(typeof el.type === "string" && el.type === tag) ||
 (typeof el.type === "function" && "displayName" in el.type &&
  el.type.displayName === tag)`.
Note the function branch requires the `displayName` property to exist and
equal `tag`; the `name` of the function is never consulted here. -/
def matchesTag (el : Child) (tag : String) : Bool :=
  match el with
  | .textNode _ => false
  | .elem (.str s) => s == tag
  | .elem (.fnc dn _) =>
    match dn with
    | some s => s == tag
    | none => false
  | .elem (.obj _ _) => false

/-- Embeds the `found` computation (utils.ts lines 19-24):
`typeof slice[j].type === "string" ? slice[j].type :
 slice[j].type.displayName || slice[j].type.name || "unknown"`.
Returns `none` for a text child, where `slice[j].type` is `undefined` and
the subsequent `.displayName` read raises a `TypeError`. -/
def foundTag (el : Child) : Option String :=
  match el with
  | .textNode _ => none
  | .elem (.str s) => some s
  | .elem (.fnc dn name) => some (jsStringOr (dn.getD "") (jsStringOr name "unknown"))
  | .elem (.obj dn name) =>
    some (jsStringOr (dn.getD "") (jsStringOr (name.getD "") "unknown"))

/-- A JavaScript exception escaping `groupBySequence`: either the `Error`
thrown explicitly by the source (`thrown`), or a runtime `TypeError` from
reading a property of `undefined`. -/
inductive JSError where
  | thrown (msg : String)
  | typeError (msg : String)
deriving DecidableEq

/-- Message of the `Error` thrown by `groupBySequence` on a tag mismatch:
`` `Expected <${tag}> at position ${i + j}, found <${found}>` ``. -/
def mismatchMsg (tag : String) (pos : Nat) (found : String) : String :=
  "Expected <" ++ tag ++ "> at position " ++ toString pos ++ ", found <" ++ found ++ ">"

/-- Embeds the body of `seq.forEach((tag, j) => ...)` (utils.ts lines
17-29) for the window `slice` starting at overall index `i`, beginning at
pattern offset `j`.  `slice.get? j = none` models `slice[j]` being
`undefined` (a short trailing window), in which case `matchesTag` reads
`el.type` of `undefined` and raises a `TypeError`; a mismatching element
whose `type` is `undefined` (a text child) raises a `TypeError` from the
`found` computation instead. -/
def checkWindow (slice : List Child) (i : Nat) : List String → Nat → Except JSError Unit
  | [], _ => .ok ()
  | tag :: tags, j =>
    match slice.get? j with
    | none => .error (.typeError "Cannot read properties of undefined (reading type)")
    | some el =>
      if matchesTag el tag then checkWindow slice i tags (j + 1)
      else
        match foundTag el with
        | some f => .error (.thrown (mismatchMsg tag (i + j) f))
        | none =>
          .error (.typeError "Cannot read properties of undefined (reading displayName)")

/-- Embeds the `for (let i = 0; i < elements.length; i += seq.length)`
loop of `groupBySequence` for a non-empty pattern `t :: ts`: each
iteration takes the window `elements.slice(i, i + seq.length)`, validates
it with `checkWindow`, and on success pushes it onto the result. -/
def groupBySequenceGo (t : String) (ts : List String) :
    List Child → Nat → Except JSError (List (List Child))
  | [], _ => .ok []
  | e :: rest, i =>
    let slice := (e :: rest).take (t :: ts).length
    match checkWindow slice i (t :: ts) 0 with
    | .error err => .error err
    | .ok _ =>
      match groupBySequenceGo t ts ((e :: rest).drop (t :: ts).length) (i + (t :: ts).length) with
      | .error err => .error err
      | .ok gs => .ok (slice :: gs)
termination_by els _ => els.length
decreasing_by
  simp only [List.length_drop, List.length_cons]
  omega

/-- Embeds `groupBySequence` (utils.ts lines 12-33), taking the element
array `Children.toArray(children)` already flattened into a `List Child`.
The result is `some (.ok groups)` on success, `some (.error e)` when the
loop throws, and `none` in the one case where the source does not
terminate: an empty pattern with a non-empty element list makes
`i += seq.length` loop forever. -/
def groupBySequence (elements : List Child) (seq : List String) :
    Option (Except JSError (List (List Child))) :=
  match seq with
  | [] => if elements.isEmpty then some (.ok []) else none
  | t :: ts => some (groupBySequenceGo t ts elements 0)

/-- Position `j` of `elements` is consistent with the repeating pattern
`seq`: whenever both the element and the pattern entry at offset
`j % seq.length` exist, `matchesTag` accepts them. -/
def matchesAt (elements : List Child) (seq : List String) (j : Nat) : Bool :=
  match elements.get? j, seq.get? (j % seq.length) with
  | some el, some tag => matchesTag el tag
  | _, _ => true

/-! ## Bracket-button transform (`tools/remark/remark-parse-buttons.mjs`) -/

/-- Success condition for the optional props branch `(?:\|(.+?))?\]$` once
the character after group 1 is `|` and `r2` is the rest of the input: the
lazy group 2 must take at least one character, every group-2 character
must be matched by `.` (so no newline), and the literal `]` must be the
last character of the input. -/
def pipeTailOk (r2 : List Char) : Bool :=
  decide (2 ≤ r2.length) && (r2.getLast? == some ']') &&
    r2.dropLast.all (fun ch => ch != '\n')

/-- Backtracking core of the anchored regex `^\[(.+?)(?:\|(.+?))?\]$`
applied after the leading `[`: `g1rev` holds the (reversed) characters
committed to the lazy group 1 so far, `rest` the remaining input.  Group 1
is extended one character at a time (failing on a newline, which `.` does
not match); after each extension the engine first tries the optional
`|`-props branch, then the bare `]` at end of input, and otherwise keeps
extending.  Returns group 1 and the optional group 2. -/
def bracketAux : List Char → List Char → Option (List Char × Option (List Char))
  | _, [] => none
  | g1rev, c :: rest =>
    if c = '\n' then none
    else
      match rest with
      | '|' :: r2 =>
        if pipeTailOk r2 then some ((c :: g1rev).reverse, some r2.dropLast)
        else bracketAux (c :: g1rev) rest
      | [']'] => some ((c :: g1rev).reverse, none)
      | _ => bracketAux (c :: g1rev) rest

/-- Embeds `linkText.match(/^\[(.+?)(?:\|(.+?))?\]$/)` (the grammar of the plugin,
line 24): `none` when the text does not match, otherwise the two
capture groups (group 2 `none` when the props branch is not taken). -/
def matchBracketGrammar (linkText : String) : Option (String × Option String) :=
  match linkText.toList with
  | '[' :: t => (bracketAux [] t).map (fun p => (p.1.asString, p.2.map List.asString))
  | _ => none

/-- Updates a JavaScript object modelled as a list of string entries in
insertion order: `props[key] = value` overwrites in place when the key is
already present and appends otherwise.  The order in which
`Object.entries` later enumerates these entries is derived from this
insertion order by `objEntries` below (array-index keys are hoisted to
the front). -/
def objSet (props : List (String × String)) (key value : String) :
    List (String × String) :=
  if props.any (fun p => p.1 == key) then
    props.map (fun p => if p.1 == key then (key, value) else p)
  else props ++ [(key, value)]

/-- Embeds the body of `propsString.split(COMMA).forEach((pair) => ...)` (COMMA the one-character comma string)
(plugin lines 46-51): `pair.split(EQ)` (EQ the one-character `=` string) splits on every `=`, the
destructuring `const [key, value] = ...` keeps the first two parts
(an absent part is `undefined`, modelled as the empty list, which is
equally falsy), and the pair is stored trimmed only when both `key` and
`value` are truthy before trimming. -/
def storePair (props : List (String × String)) (pair : List Char) :
    List (String × String) :=
  let parts := splitOnChar '=' pair
  let key := (parts.get? 0).getD []
  let value := (parts.get? 1).getD []
  if key ≠ [] ∧ value ≠ [] then
    objSet props (trimChars key).asString (trimChars value).asString
  else props

/-- Embeds `parseCommaDelimitedProps` (plugin lines 39-54); the argument
is `none` when group 2 of the regex did not participate (`bracketMatch[2]`
being `undefined`). -/
def parseCommaDelimitedProps : Option String → List (String × String)
  | none => []
  | some s =>
    if s = "" then []
    else (splitOnChar ',' s.toList).foldl storePair []

/-- The transient `{ text, props }` descriptor built from a matching
bracket link (plugin lines 33-36). -/
structure ButtonDescriptor where
  text : String
  props : List (String × String)
deriving DecidableEq

/-- Embeds `extractButtonSyntaxFromDoubleBrackets` (plugin lines 23-37):
`null` (here `none`) when the grammar does not match, otherwise the
trimmed group 1 as the button text and the parsed group 2 as the props. -/
def extractButtonSyntaxFromDoubleBrackets (linkText : String) : Option ButtonDescriptor :=
  match matchBracketGrammar linkText with
  | none => none
  | some (g1, g2) => some { text := jsTrim g1, props := parseCommaDelimitedProps g2 }

/-- A node of the document syntax tree handled by the plugin: mdast
`text` and `link` nodes, any other mdast node kind (`node ty`, carrying
its children), and the `mdxJsxTextElement` nodes the plugin emits, whose
`mdxJsxAttribute` list is modelled as ordered `(name, value)` pairs. -/
inductive MNode where
  | text (value : String)
  | link (url : String) (children : List MNode)
  | node (ty : String) (children : List MNode)
  | jsxEl (name : String) (attributes : List (String × String)) (children : List MNode)

/-- Numeric value of a digit string, most significant digit first. -/
def digitsToNat (l : List Char) : Nat :=
  l.foldl (fun n c => n * 10 + (c.toNat - 48)) 0

/-- Whether a property key is an ECMAScript array index: the canonical
decimal representation (no sign, no leading zero except `0` itself) of an
integer below `2^32 - 1`.  `Object.entries` enumerates such keys before
all other string keys. -/
def isArrayIndexKey (s : String) : Bool :=
  match s.toList with
  | [] => false
  | c :: cs =>
    (c :: cs).all Char.isDigit &&
      (c != '0' || cs.isEmpty) &&
      decide (digitsToNat (c :: cs) < 4294967295)

/-- Inserts an entry into a list of array-index entries kept in ascending
numeric key order. -/
def insertByNumericKey (p : String × String) :
    List (String × String) → List (String × String)
  | [] => [p]
  | q :: qs =>
    if digitsToNat p.1.toList < digitsToNat q.1.toList then p :: q :: qs
    else q :: insertByNumericKey p qs

/-- Sorts array-index entries into ascending numeric key order (distinct
canonical keys have distinct values, so the order is unique). -/
def sortByNumericKey : List (String × String) → List (String × String)
  | [] => []
  | p :: ps => insertByNumericKey p (sortByNumericKey ps)

/-- Embeds the enumeration order of `Object.entries` over a plain object
whose entries were created in the order `props` (ECMAScript
OrdinaryOwnPropertyKeys): entries whose key is a canonical array index
come first, in ascending numeric order, followed by the remaining
entries in insertion order. -/
def objEntries (props : List (String × String)) : List (String × String) :=
  sortByNumericKey (props.filter (fun p => isArrayIndexKey p.1)) ++
    props.filter (fun p => !isArrayIndexKey p.1)

/-- Embeds `createMdxButtonElement` (plugin lines 56-82): a `Button`
element whose attribute list starts with `href` (from the `url` of the
link) followed by `Object.entries(bs.props)` — the props object
enumerated with array-index keys first in ascending numeric order, then
the remaining keys in insertion order — with a single text child holding
the button text. -/
def createMdxButtonElement (bs : ButtonDescriptor) (href : String) : MNode :=
  .jsxEl "Button" (("href", href) :: objEntries bs.props) [.text bs.text]

/-- Embeds `linkNodeHasTextContent` (plugin lines 17-21): the link has a
first child and that child is a `text` node. -/
def linkNodeHasTextContent (children : List MNode) : Bool :=
  match children with
  | .text _ :: _ => true
  | _ => false

mutual

/-- Embeds the `visit(tree, "link", ...)` pass of
`transformBracketLinksToButtons` (plugin lines 3-15) as a recursive tree
rewrite: a `link` node whose first child is a text node matching the
bracket grammar is replaced in place by the Button element; every other
node keeps its own fields and recursively transforms its children (the
subtree of the replacement is the freshly built Button, whose children are not
links, so it is not rewritten further). -/
def transformNode : MNode → MNode
  | .text v => .text v
  | .link url children =>
    match children with
    | .text v :: rest =>
      match extractButtonSyntaxFromDoubleBrackets v with
      | some bs => createMdxButtonElement bs url
      | none => .link url (transformList (.text v :: rest))
    | cs => .link url (transformList cs)
  | .node ty cs => .node ty (transformList cs)
  | .jsxEl n a cs => .jsxEl n a (transformList cs)

/-- Pointwise `transformNode` over a children list. -/
def transformList : List MNode → List MNode
  | [] => []
  | n :: ns => transformNode n :: transformList ns

end

mutual

/-- Does the tree contain a link node the plugin rewrites, i.e. one whose
first child is a text node matching the bracket grammar? -/
def hasMatchingLink : MNode → Bool
  | .text _ => false
  | .link _ cs =>
    (match cs with
     | .text v :: _ => (extractButtonSyntaxFromDoubleBrackets v).isSome
     | _ => false) || hasMatchingLinkList cs
  | .node _ cs => hasMatchingLinkList cs
  | .jsxEl _ _ cs => hasMatchingLinkList cs

/-- Any member of the list contains a link the plugin rewrites. -/
def hasMatchingLinkList : List MNode → Bool
  | [] => false
  | n :: ns => hasMatchingLink n || hasMatchingLinkList ns

end

/-- Splits a character list at the first `=`, as the words of the props
claim describe: the key is everything before the first `=` and the value
everything after it; `none` when there is no `=` at all.  Stated for
comparison with `storePair` from the source. -/
def splitOnceAtEq : List Char → Option (List Char × List Char)
  | [] => none
  | '=' :: rest => some ([], rest)
  | c :: rest => (splitOnceAtEq rest).map (fun p => (c :: p.1, p.2))

/-- Props parsing as the words of the specification describe it (split on
commas; split each piece once on `=` so everything after the first `=` is
the value; trim both sides; discard a piece whose key or value is empty
after trimming).  Stated only to compare with the
`parseCommaDelimitedProps` of the source. -/
def parsePropsClaimed (propsString : String) : List (String × String) :=
  (splitOnChar ',' propsString.toList).foldl
    (fun props piece =>
      match splitOnceAtEq piece with
      | none => props
      | some (k, v) =>
        let key := (trimChars k).asString
        let value := (trimChars v).asString
        if key ≠ "" ∧ value ≠ "" then objSet props key value else props) []

/-! Helper lemmas about the grouper. -/

theorem matchesTag_of_matchesAt {elements : List Child} {seq : List String} {j : Nat}
    {el : Child} {tag : String} (h : matchesAt elements seq j = true)
    (he : elements.get? j = some el) (ht : seq.get? (j % seq.length) = some tag) :
    matchesTag el tag = true := by
  unfold matchesAt at h
  rw [he, ht] at h
  exact h

theorem matchesAt_drop (els : List Child) (t : String) (ts : List String) (j : Nat) :
    matchesAt (els.drop ((t :: ts).length)) (t :: ts) j =
      matchesAt els (t :: ts) ((t :: ts).length + j) := by
  unfold matchesAt
  rw [List.get?_drop, Nat.add_mod_left]

theorem checkWindow_ok (i : Nat) :
    ∀ (tags : List String) (slice : List Child) (j : Nat),
      (∀ d tag, tags.get? d = some tag →
        ∃ el, slice.get? (j + d) = some el ∧ matchesTag el tag = true) →
      checkWindow slice i tags j = .ok ()
  | [], _, _, _ => rfl
  | tag :: tags, slice, j, H => by
    obtain ⟨el, hel, hm⟩ := H 0 tag rfl
    have hel' : slice.get? j = some el := hel
    simp only [checkWindow, hel', hm, if_true]
    exact checkWindow_ok i tags slice (j + 1) (fun d tg hd => by
      obtain ⟨el', he', hm'⟩ := H (d + 1) tg hd
      have harith : j + (d + 1) = j + 1 + d := by omega
      rw [harith] at he'
      exact ⟨el', he', hm'⟩)

theorem checkWindow_mismatch (i : Nat) :
    ∀ (m : Nat) (tags : List String) (slice : List Child) (j : Nat)
      (tag : String) (el : Child),
      (∀ d, d < m → ∀ tg, tags.get? d = some tg →
        ∃ e, slice.get? (j + d) = some e ∧ matchesTag e tg = true) →
      tags.get? m = some tag →
      slice.get? (j + m) = some el →
      matchesTag el tag = false →
      checkWindow slice i tags j =
        (match foundTag el with
         | some f => .error (.thrown (mismatchMsg tag (i + (j + m)) f))
         | none => .error (.typeError "Cannot read properties of undefined (reading displayName)"))
  | 0, tags, slice, j, tag, el => by
    intro _ htag hel hmis
    cases tags with
    | nil => simp at htag
    | cons t0 ts' =>
      have ht0 : t0 = tag := by simpa using htag
      subst ht0
      have hel' : slice.get? j = some el := hel
      simp only [checkWindow, hel', hmis, Bool.false_eq_true, if_false]
      rfl
  | m + 1, tags, slice, j, tag, el => by
    intro Hpre htag hel hmis
    cases tags with
    | nil => simp at htag
    | cons t0 ts' =>
      obtain ⟨e0, he0, hm0⟩ := Hpre 0 (by omega) t0 rfl
      have he0' : slice.get? j = some e0 := he0
      simp only [checkWindow, he0', hm0, if_true]
      have harith : j + (m + 1) = j + 1 + m := by omega
      rw [harith] at hel
      have hres := checkWindow_mismatch i m ts' slice (j + 1) tag el
        (fun d hd tg htg => by
          obtain ⟨e', he', hm'⟩ := Hpre (d + 1) (by omega) tg htg
          have ha : j + (d + 1) = j + 1 + d := by omega
          rw [ha] at he'
          exact ⟨e', he', hm'⟩)
        htag hel hmis
      rw [hres]
      have hpos : i + (j + 1 + m) = i + (j + (m + 1)) := by omega
      rw [hpos]

theorem checkWindow_oob (i : Nat) :
    ∀ (m : Nat) (tags : List String) (slice : List Child) (j : Nat),
      (∀ d, d < m → ∀ tg, tags.get? d = some tg →
        ∃ e, slice.get? (j + d) = some e ∧ matchesTag e tg = true) →
      (∃ tag, tags.get? m = some tag) →
      slice.get? (j + m) = none →
      checkWindow slice i tags j =
        .error (.typeError "Cannot read properties of undefined (reading type)")
  | 0, tags, slice, j => by
    intro _ htag hel
    obtain ⟨tag, htag⟩ := htag
    cases tags with
    | nil => simp at htag
    | cons t0 ts' =>
      have hel' : slice.get? j = none := hel
      simp only [checkWindow, hel']
  | m + 1, tags, slice, j => by
    intro Hpre htag hel
    obtain ⟨tag, htag⟩ := htag
    cases tags with
    | nil => simp at htag
    | cons t0 ts' =>
      obtain ⟨e0, he0, hm0⟩ := Hpre 0 (by omega) t0 rfl
      have he0' : slice.get? j = some e0 := he0
      simp only [checkWindow, he0', hm0, if_true]
      have harith : j + (m + 1) = j + 1 + m := by omega
      rw [harith] at hel
      exact checkWindow_oob i m ts' slice (j + 1)
        (fun d hd tg htg => by
          obtain ⟨e', he', hm'⟩ := Hpre (d + 1) (by omega) tg htg
          have ha : j + (d + 1) = j + 1 + d := by omega
          rw [ha] at he'
          exact ⟨e', he', hm'⟩)
        ⟨tag, htag⟩ hel

theorem groupGo_ok (t : String) (ts : List String) :
    ∀ (els : List Child) (i : Nat),
      (∀ j, j < els.length → matchesAt els (t :: ts) j = true) →
      els.length % (t :: ts).length = 0 →
      ∃ gs, groupBySequenceGo t ts els i = .ok gs ∧
        gs.length = els.length / (t :: ts).length ∧
        (∀ g ∈ gs, g.length = (t :: ts).length) ∧
        gs.join = els
  | [], i, _, _ => ⟨[], by simp [groupBySequenceGo], by simp, by simp, by simp⟩
  | e :: rest, i, H, Hm => by
    have hkpos : 0 < (t :: ts).length := by simp
    have hlen : (t :: ts).length ≤ (e :: rest).length := by
      by_contra hcon
      push_neg at hcon
      have h0 := Nat.mod_eq_of_lt hcon
      rw [Hm] at h0
      simp at h0
    have hcw : checkWindow ((e :: rest).take (t :: ts).length) i (t :: ts) 0 = .ok () := by
      apply checkWindow_ok
      intro d tag htg
      have hd : d < (t :: ts).length := (List.get?_eq_some.mp htg).1
      have hdl : d < (e :: rest).length := lt_of_lt_of_le hd hlen
      refine ⟨(e :: rest).get ⟨d, hdl⟩, ?_, ?_⟩
      · rw [Nat.zero_add, List.get?_take hd]
        exact List.get?_eq_get hdl
      · exact matchesTag_of_matchesAt (H d hdl) (List.get?_eq_get hdl)
          (by rw [Nat.mod_eq_of_lt hd]; exact htg)
    have Hdrop : ∀ j, j < ((e :: rest).drop ((t :: ts).length)).length →
        matchesAt ((e :: rest).drop ((t :: ts).length)) (t :: ts) j = true := by
      intro j hj
      rw [matchesAt_drop]
      apply H
      rw [List.length_drop] at hj
      omega
    obtain ⟨q, hq⟩ := Nat.dvd_of_mod_eq_zero Hm
    have hq1 : 1 ≤ q := by
      rcases Nat.eq_zero_or_pos q with h | h
      · rw [h, Nat.mul_zero] at hq; simp at hq
      · exact h
    have hsub : (e :: rest).length - (t :: ts).length = (t :: ts).length * (q - 1) := by
      rw [hq]
      cases q with
      | zero => omega
      | succ q' => rw [Nat.mul_succ]; simp
    have Hmod : ((e :: rest).drop ((t :: ts).length)).length % (t :: ts).length = 0 := by
      rw [List.length_drop, hsub, Nat.mul_mod_right]
    obtain ⟨gs', hgo', hlen', hall', hjoin'⟩ :=
      groupGo_ok t ts ((e :: rest).drop ((t :: ts).length)) (i + (t :: ts).length) Hdrop Hmod
    refine ⟨(e :: rest).take (t :: ts).length :: gs', ?_, ?_, ?_, ?_⟩
    · simp only [groupBySequenceGo, hcw, hgo']
    · rw [List.length_cons, hlen', List.length_drop, hsub,
        Nat.mul_div_cancel_left _ hkpos, hq, Nat.mul_div_cancel_left _ hkpos]
      omega
    · intro g hg
      rcases List.mem_cons.mp hg with h | h
      · rw [h, List.length_take]
        omega
      · exact hall' g h
    · show List.take (t :: ts).length (e :: rest) ++ gs'.join = e :: rest
      rw [hjoin', List.take_append_drop]
termination_by els _ => els.length
decreasing_by
  simp only [List.length_drop, List.length_cons]
  omega

theorem groupGo_mismatch (t : String) (ts : List String) :
    ∀ (els : List Child) (i p : Nat) (el : Child) (tag : String),
      (∀ j, j < p → matchesAt els (t :: ts) j = true) →
      els.get? p = some el →
      (t :: ts).get? (p % (t :: ts).length) = some tag →
      matchesTag el tag = false →
      groupBySequenceGo t ts els i =
        (match foundTag el with
         | some f => .error (.thrown (mismatchMsg tag (i + p) f))
         | none => .error (.typeError "Cannot read properties of undefined (reading displayName)"))
  | [], i, p, el, tag => by
    intro _ hel _ _
    simp at hel
  | e :: rest, i, p, el, tag => by
    intro Hpre hel htag hmis
    have hplen : p < (e :: rest).length := (List.get?_eq_some.mp hel).1
    rcases Nat.lt_or_ge p ((t :: ts).length) with hpk | hpk
    · -- the failure happens in the first window
      rw [Nat.mod_eq_of_lt hpk] at htag
      have hcw := checkWindow_mismatch i p (t :: ts) ((e :: rest).take (t :: ts).length) 0 tag el
        (fun d hd tg htg => by
          have hdk : d < (t :: ts).length := by omega
          have hdl : d < (e :: rest).length := by omega
          refine ⟨(e :: rest).get ⟨d, hdl⟩, ?_, ?_⟩
          · rw [Nat.zero_add, List.get?_take hdk]
            exact List.get?_eq_get hdl
          · exact matchesTag_of_matchesAt (Hpre d hd) (List.get?_eq_get hdl)
              (by rw [Nat.mod_eq_of_lt hdk]; exact htg))
        htag
        (by rw [Nat.zero_add, List.get?_take hpk]; exact hel)
        hmis
      cases hf : foundTag el with
      | some f =>
        simp only [hf] at hcw ⊢
        simp only [groupBySequenceGo, hcw]
        rw [Nat.zero_add]
      | none =>
        simp only [hf] at hcw ⊢
        simp only [groupBySequenceGo, hcw]
    · -- the first window passes; recurse on the remainder
      have hcw : checkWindow ((e :: rest).take (t :: ts).length) i (t :: ts) 0 = .ok () := by
        apply checkWindow_ok
        intro d tg htg
        have hd : d < (t :: ts).length := (List.get?_eq_some.mp htg).1
        have hdl : d < (e :: rest).length := by omega
        refine ⟨(e :: rest).get ⟨d, hdl⟩, ?_, ?_⟩
        · rw [Nat.zero_add, List.get?_take hd]
          exact List.get?_eq_get hdl
        · exact matchesTag_of_matchesAt (Hpre d (by omega)) (List.get?_eq_get hdl)
            (by rw [Nat.mod_eq_of_lt hd]; exact htg)
      have hrec := groupGo_mismatch t ts ((e :: rest).drop ((t :: ts).length))
        (i + (t :: ts).length) (p - (t :: ts).length) el tag
        (fun j hj => by
          rw [matchesAt_drop]
          exact Hpre ((t :: ts).length + j) (by omega))
        (by rw [List.get?_drop]
            have : (t :: ts).length + (p - (t :: ts).length) = p := by omega
            rw [this]
            exact hel)
        (by have : (p - (t :: ts).length) % (t :: ts).length = p % (t :: ts).length := by
              conv_rhs => rw [show p = (t :: ts).length + (p - (t :: ts).length) from by omega]
              rw [Nat.add_mod_left]
            rw [this]
            exact htag)
        hmis
      cases hf : foundTag el with
      | some f =>
        simp only [hf] at hrec ⊢
        simp only [groupBySequenceGo, hcw, hrec]
        have : i + (t :: ts).length + (p - (t :: ts).length) = i + p := by omega
        rw [this]
      | none =>
        simp only [hf] at hrec ⊢
        simp only [groupBySequenceGo, hcw, hrec]
termination_by els _ _ _ _ => els.length
decreasing_by
  simp only [List.length_drop, List.length_cons]
  omega

theorem groupGo_short_window (t : String) (ts : List String) :
    ∀ (els : List Child) (i : Nat),
      (∀ j, j < els.length → matchesAt els (t :: ts) j = true) →
      els.length % (t :: ts).length ≠ 0 →
      groupBySequenceGo t ts els i =
        .error (.typeError "Cannot read properties of undefined (reading type)")
  | [], i, _, Hm => by simp at Hm
  | e :: rest, i, H, Hm => by
    rcases Nat.lt_or_ge ((e :: rest).length) ((t :: ts).length) with hlt | hge
    · -- short trailing window: the element at offset `length` is undefined
      have hcw := checkWindow_oob i ((e :: rest).length) (t :: ts)
        ((e :: rest).take (t :: ts).length) 0
        (fun d hd tg htg => by
          have hdk : d < (t :: ts).length := by omega
          refine ⟨(e :: rest).get ⟨d, hd⟩, ?_, ?_⟩
          · rw [Nat.zero_add, List.get?_take hdk]
            exact List.get?_eq_get hd
          · exact matchesTag_of_matchesAt (H d hd) (List.get?_eq_get hd)
              (by rw [Nat.mod_eq_of_lt hdk]; exact htg))
        ⟨(t :: ts).get ⟨(e :: rest).length, hlt⟩, List.get?_eq_get hlt⟩
        (by rw [Nat.zero_add]
            apply List.get?_eq_none.mpr
            rw [List.length_take]
            omega)
      simp only [groupBySequenceGo, hcw]
    · -- the first window passes; recurse on the remainder
      have hcw : checkWindow ((e :: rest).take (t :: ts).length) i (t :: ts) 0 = .ok () := by
        apply checkWindow_ok
        intro d tg htg
        have hd : d < (t :: ts).length := (List.get?_eq_some.mp htg).1
        have hdl : d < (e :: rest).length := by omega
        refine ⟨(e :: rest).get ⟨d, hdl⟩, ?_, ?_⟩
        · rw [Nat.zero_add, List.get?_take hd]
          exact List.get?_eq_get hdl
        · exact matchesTag_of_matchesAt (H d hdl) (List.get?_eq_get hdl)
            (by rw [Nat.mod_eq_of_lt hd]; exact htg)
      have hrec := groupGo_short_window t ts ((e :: rest).drop ((t :: ts).length))
        (i + (t :: ts).length)
        (fun j hj => by
          rw [matchesAt_drop]
          apply H
          rw [List.length_drop] at hj
          omega)
        (by rw [List.length_drop]
            intro hzero
            apply Hm
            conv_lhs => rw [show (e :: rest).length =
              (t :: ts).length + ((e :: rest).length - (t :: ts).length) from by omega]
            rw [Nat.add_mod_left]
            exact hzero)
      simp only [groupBySequenceGo, hcw, hrec]
termination_by els _ => els.length
decreasing_by
  simp only [List.length_drop, List.length_cons]
  omega

/-! Helper lemmas about the transform. -/

theorem transformList_append (l r : List MNode) :
    transformList (l ++ r) = transformList l ++ transformList r := by
  induction l with
  | nil => rfl
  | cons n ns ih =>
    show transformNode n :: transformList (ns ++ r) =
      transformNode n :: (transformList ns ++ transformList r)
    rw [ih]

theorem transformNode_link_button (url v : String) (rest : List MNode)
    (bs : ButtonDescriptor) (h : extractButtonSyntaxFromDoubleBrackets v = some bs) :
    transformNode (.link url (.text v :: rest)) = createMdxButtonElement bs url := by
  simp only [transformNode, h]

theorem objEntries_eq_self {props : List (String × String)}
    (h : ∀ p ∈ props, isArrayIndexKey p.1 = false) : objEntries props = props := by
  unfold objEntries
  have h1 : props.filter (fun p => isArrayIndexKey p.1) = [] := by
    rw [List.filter_eq_nil]
    intro a ha
    simp [h a ha]
  have h2 : props.filter (fun p => !isArrayIndexKey p.1) = props := by
    rw [List.filter_eq_self]
    intro a ha
    simp [h a ha]
  rw [h1, h2]
  rfl

mutual

theorem transformNode_id : ∀ (n : MNode), hasMatchingLink n = false → transformNode n = n
  | .text _, _ => rfl
  | .link url cs, h => by
    cases cs with
    | nil => simp [transformNode, transformList]
    | cons hd tl =>
      cases hd with
      | text v =>
        rw [hasMatchingLink] at h
        rcases Bool.or_eq_false_iff.mp h with ⟨h1, h2⟩
        have hnone : extractButtonSyntaxFromDoubleBrackets v = none := by
          cases hx : extractButtonSyntaxFromDoubleBrackets v with
          | none => rfl
          | some bs => rw [hx] at h1; simp at h1
        simp only [transformNode, hnone, transformList_id _ h2]
      | link u2 cs2 =>
        have h2 : hasMatchingLinkList (MNode.link u2 cs2 :: tl) = false := by
          simp only [hasMatchingLink, Bool.or_eq_false_iff] at h
          exact h.2
        simp only [transformNode, transformList_id _ h2]
      | node ty2 cs2 =>
        have h2 : hasMatchingLinkList (MNode.node ty2 cs2 :: tl) = false := by
          simp only [hasMatchingLink, Bool.or_eq_false_iff] at h
          exact h.2
        simp only [transformNode, transformList_id _ h2]
      | jsxEl n2 a2 cs2 =>
        have h2 : hasMatchingLinkList (MNode.jsxEl n2 a2 cs2 :: tl) = false := by
          simp only [hasMatchingLink, Bool.or_eq_false_iff] at h
          exact h.2
        simp only [transformNode, transformList_id _ h2]
  | .node ty cs, h => by
    rw [hasMatchingLink] at h
    simp only [transformNode, transformList_id cs h]
  | .jsxEl nm a cs, h => by
    rw [hasMatchingLink] at h
    simp only [transformNode, transformList_id cs h]

theorem transformList_id : ∀ (l : List MNode), hasMatchingLinkList l = false → transformList l = l
  | [], _ => rfl
  | n :: ns, h => by
    rw [hasMatchingLinkList] at h
    rcases Bool.or_eq_false_iff.mp h with ⟨h1, h2⟩
    simp only [transformList, transformNode_id n h1, transformList_id ns h2]

end

/-! Claim theorems. -/

/-- C1: for every children list whose length is a multiple of the length
`k` of a non-empty pattern and in which every element matches the pattern
entry at its offset, `groupBySequence` succeeds with exactly
`ceil(n / k) = n / k` groups, each an ordered list of exactly `k`
elements, whose in-order concatenation is the input list (no element
duplicated, dropped, or reordered); and on an empty children list with
any non-empty pattern it returns an empty group list without error. -/
theorem C1_grouper_partition :
    (∀ (t : String) (ts : List String) (elements : List Child),
      (∀ j, j < elements.length → matchesAt elements (t :: ts) j = true) →
      elements.length % (t :: ts).length = 0 →
      ∃ gs, groupBySequence elements (t :: ts) = some (.ok gs) ∧
        gs.length = elements.length / (t :: ts).length ∧
        (∀ g ∈ gs, g.length = (t :: ts).length) ∧
        gs.join = elements)
    ∧ (∀ (t : String) (ts : List String),
        groupBySequence ([] : List Child) (t :: ts) = some (.ok [])) := by
  constructor
  · intro t ts elements H Hm
    obtain ⟨gs, hgo, h1, h2, h3⟩ := groupGo_ok t ts elements 0 H Hm
    exact ⟨gs, by simp only [groupBySequence, hgo], h1, h2, h3⟩
  · intro t ts
    simp [groupBySequence, groupBySequenceGo]

/-- Witness for C1, at the children list `[h3, p, h3, p]` and the pattern
`["h3", "p"]` from the specification example. -/
theorem C1_grouper_partition_witness :
    (∀ j, j < (4 : Nat) → matchesAt
      [Child.elem (.str "h3"), Child.elem (.str "p"),
       Child.elem (.str "h3"), Child.elem (.str "p")] ["h3", "p"] j = true)
    ∧ (4 : Nat) % 2 = 0
    ∧ (∃ gs, groupBySequence
        [Child.elem (.str "h3"), Child.elem (.str "p"),
         Child.elem (.str "h3"), Child.elem (.str "p")] ["h3", "p"] = some (.ok gs) ∧
        gs.length = 2 ∧ (∀ g ∈ gs, g.length = 2) ∧
        gs.join =
          [Child.elem (.str "h3"), Child.elem (.str "p"),
           Child.elem (.str "h3"), Child.elem (.str "p")]) :=
  ⟨by decide, by decide,
    C1_grouper_partition.1 "h3" ["p"]
      [Child.elem (.str "h3"), Child.elem (.str "p"),
       Child.elem (.str "h3"), Child.elem (.str "p")] (by decide) (by decide)⟩

/-- C2 counterexample: on the children list `[text, h3]` with pattern
`["h3", "p"]`, the first position holding a present element with a
determinable tag that mismatches its pattern entry is position 1 (the
`h3` element against `"p"`), yet the code does not throw the structured
`Expected <p> at position 1, found <h3>` error: it dies earlier, at the
text child in position 0, with a `TypeError` raised while computing the
`found` tag of an element whose `type` is `undefined`. -/
theorem C2_counterexample :
    groupBySequence [Child.textNode "intro", Child.elem (.str "h3")] ["h3", "p"] =
      some (.error (.typeError "Cannot read properties of undefined (reading displayName)")) := by
  simp [groupBySequence, groupBySequenceGo, checkWindow, matchesTag, foundTag]

/-- C2 (amended): at the first position `p` (in scan order) where the tag
check fails, provided the element there is present and its `found` tag is
computable, `groupBySequence` throws an `Error` whose message is exactly
`Expected <TAG> at position N, found <ACTUAL>` with `N = p`,
`TAG = pattern[p mod k]`, and `ACTUAL` the found tag, returning no
partial result; in particular `groupBySequence([h3, h3, p], ["h3", "p"])`
throws the error referencing position 1, expected `p`, found `h3`. -/
theorem C2_first_mismatch_error :
    (∀ (t : String) (ts : List String) (elements : List Child) (p : Nat)
      (el : Child) (tag f : String),
      (∀ j, j < p → matchesAt elements (t :: ts) j = true) →
      elements.get? p = some el →
      (t :: ts).get? (p % (t :: ts).length) = some tag →
      matchesTag el tag = false →
      foundTag el = some f →
      groupBySequence elements (t :: ts) =
        some (.error (.thrown (mismatchMsg tag p f))))
    ∧ groupBySequence
        [Child.elem (.str "h3"), Child.elem (.str "h3"), Child.elem (.str "p")]
        ["h3", "p"] =
      some (.error (.thrown "Expected <p> at position 1, found <h3>")) := by
  constructor
  · intro t ts elements p el tag f Hpre hel htag hmis hf
    have h := groupGo_mismatch t ts elements 0 p el tag Hpre hel htag hmis
    rw [hf] at h
    simp only [groupBySequence, h, Nat.zero_add]
  · simp [groupBySequence, groupBySequenceGo, checkWindow, matchesTag, foundTag,
      mismatchMsg]
    rfl

/-- Witness for C2, at the specification example `[h3, h3, p]` against
`["h3", "p"]`: position 1 fails, the element there is an `h3` intrinsic
element, and the thrown message references position 1. -/
theorem C2_first_mismatch_error_witness :
    (∀ j, j < (1 : Nat) → matchesAt
      [Child.elem (.str "h3"), Child.elem (.str "h3"), Child.elem (.str "p")]
      ["h3", "p"] j = true)
    ∧ [Child.elem (.str "h3"), Child.elem (.str "h3"), Child.elem (.str "p")].get? 1 =
        some (Child.elem (.str "h3"))
    ∧ ["h3", "p"].get? (1 % 2) = some "p"
    ∧ matchesTag (Child.elem (.str "h3")) "p" = false
    ∧ foundTag (Child.elem (.str "h3")) = some "h3"
    ∧ groupBySequence
        [Child.elem (.str "h3"), Child.elem (.str "h3"), Child.elem (.str "p")]
        ["h3", "p"] =
      some (.error (.thrown (mismatchMsg "p" 1 "h3"))) :=
  ⟨by decide, by decide, by decide, by decide, by decide,
    C2_first_mismatch_error.1 "h3" ["p"]
      [Child.elem (.str "h3"), Child.elem (.str "h3"), Child.elem (.str "p")]
      1 (Child.elem (.str "h3")) "p" "h3"
      (by decide) (by decide) (by decide) (by decide) (by decide)⟩

/-- C4 counterexample: on the trailing partial window
`groupBySequence([h3], ["h3", "p"])` the code does not surface the
structured mismatch error with the placeholder `unknown` claimed by C4
(`Expected <p> at position 1, found <unknown>`); it raises a `TypeError`
while `matchesTag` reads `el.type` of the `undefined` element
`slice[1]`. -/
theorem C4_counterexample :
    groupBySequence [Child.elem (.str "h3")] ["h3", "p"] =
      some (.error (.typeError "Cannot read properties of undefined (reading type)")) := by
  simp [groupBySequence, groupBySequenceGo, checkWindow, matchesTag]

/-- C4 (amended): a children list whose length is not a multiple of the
pattern length is indeed not silently truncated — the short trailing
window aborts the whole call — but with a `TypeError` from reading a
property of `undefined`, not with the structured mismatch error; a bare
text node at a mismatching position likewise aborts with a `TypeError`
raised while computing the found tag; the placeholder `unknown` appears
only for a present element whose `type` supports property reads but has
no truthy `displayName` or `name` (such as an anonymous function
component). -/
theorem C4_partial_window_behavior :
    (∀ (t : String) (ts : List String) (elements : List Child),
      (∀ j, j < elements.length → matchesAt elements (t :: ts) j = true) →
      elements.length % (t :: ts).length ≠ 0 →
      groupBySequence elements (t :: ts) =
        some (.error (.typeError "Cannot read properties of undefined (reading type)")))
    ∧ groupBySequence [Child.textNode "just text"] ["h3"] =
        some (.error (.typeError "Cannot read properties of undefined (reading displayName)"))
    ∧ groupBySequence [Child.elem (.fnc none "")] ["h3"] =
        some (.error (.thrown "Expected <h3> at position 0, found <unknown>")) := by
  refine ⟨?_, ?_, ?_⟩
  · intro t ts elements H Hm
    simp only [groupBySequence]
    rw [groupGo_short_window t ts elements 0 H Hm]
  · simp [groupBySequence, groupBySequenceGo, checkWindow, matchesTag, foundTag]
  · simp [groupBySequence, groupBySequenceGo, checkWindow, matchesTag, foundTag,
      jsStringOr, mismatchMsg]
    rfl

/-- Witness for C4, at the children list `[h3, p, h3]` (every present
position matches `["h3", "p"]`, but the length 3 leaves a short trailing
window). -/
theorem C4_partial_window_behavior_witness :
    (∀ j, j < (3 : Nat) → matchesAt
      [Child.elem (.str "h3"), Child.elem (.str "p"), Child.elem (.str "h3")]
      ["h3", "p"] j = true)
    ∧ (3 : Nat) % 2 = 1
    ∧ groupBySequence
        [Child.elem (.str "h3"), Child.elem (.str "p"), Child.elem (.str "h3")]
        ["h3", "p"] =
      some (.error (.typeError "Cannot read properties of undefined (reading type)")) :=
  ⟨by decide, by decide,
    C4_partial_window_behavior.1 "h3" ["p"]
      [Child.elem (.str "h3"), Child.elem (.str "p"), Child.elem (.str "h3")]
      (by decide) (by decide)⟩

/-- C5 counterexample: a function component named `h3` with no
`displayName` property does not match the pattern entry `"h3"`, although
claim C5 says the constructor/function name is used as a fallback. -/
theorem C5_counterexample :
    matchesTag (Child.elem (.fnc none "h3")) "h3" = false := rfl

/-- C5 (amended): the tag match succeeds exactly when (a) the element is
an intrinsic tag whose tag string equals the pattern entry, or (b) the
element is a function component whose `displayName` property is present
and equals the pattern entry; the function name is never consulted for
matching (it is used only in the mismatch error message), and
non-function component types never match. -/
theorem C5_matchesTag_characterization :
    ∀ (el : Child) (tag : String),
      matchesTag el tag = true ↔
        (el = Child.elem (.str tag) ∨
          ∃ name, el = Child.elem (.fnc (some tag) name)) := by
  intro el tag
  cases el with
  | textNode v => simp [matchesTag]
  | elem ty =>
    cases ty with
    | str s => simp [matchesTag]
    | fnc dn name =>
      cases dn with
      | none => simp [matchesTag]
      | some s => simp [matchesTag]
    | obj dn nm => simp [matchesTag]

/-- C3 counterexample: on the props segment `a=1=2,b= ` the source and
the claimed parsing rule disagree twice.  The source splits `a=1=2` on
every `=` and keeps only the first two parts, so the value is `1`, not
everything after the first `=` (`1=2`); and it tests `key && value` for
truthiness before trimming, so `b= ` is kept as the entry `(b, "")`
instead of being discarded for an empty trimmed value. -/
theorem C3_counterexample :
    parseCommaDelimitedProps (some "a=1=2,b= ") = [("a", "1"), ("b", "")]
    ∧ parsePropsClaimed "a=1=2,b= " = [("a", "1=2")] := ⟨rfl, rfl⟩

/-- C3 (amended): each comma-separated piece is split on every `=`; the
key is the part before the first `=` and the value the part between the
first and second `=` (anything after a second `=` is dropped); the piece
is kept only when both key and value are non-empty before trimming, and
the stored key and value are then trimmed (so whitespace-only keys or
values are stored as empty strings rather than discarded). -/
theorem C3_props_piece_semantics :
    ∀ (props : List (String × String)) (piece : List Char),
      storePair props piece =
        match splitOnChar '=' piece with
        | k :: v :: _ =>
          if k ≠ [] ∧ v ≠ [] then
            objSet props (trimChars k).asString (trimChars v).asString
          else props
        | _ => props := by
  intro props piece
  unfold storePair
  cases hs : splitOnChar '=' piece with
  | nil => simp [hs]
  | cons k t =>
    cases t with
    | nil => simp [hs]
    | cons v rest => simp [hs]

/-- C6 counterexample: on the link text `[X|b=2,0=a]` with url `/x` the
props appear in the segment in the order `b=2`, then `0=a`, and the
parsed props object stores them in that insertion order; but the emitted
attributes are `[href=/x, 0=a, b=2]`, because `Object.entries` enumerates
the array-index key `0` before the string key `b`.  So the claimed rule
that the remaining attributes always follow the order of appearance in
the props segment is false of the program. -/
theorem C6_counterexample :
    parseCommaDelimitedProps (some "b=2,0=a") = [("b", "2"), ("0", "a")]
    ∧ transformNode (.link "/x" [.text "[X|b=2,0=a]"]) =
        .jsxEl "Button" [("href", "/x"), ("0", "a"), ("b", "2")] [.text "X"] :=
  ⟨rfl, rfl⟩

/-- C6 (amended): the bracket link with text `[Label|a=1,b=2]` and url
`/x` becomes a `Button` element node with attributes exactly
`[href=/x, a=1, b=2]` in that order and the single text child `Label`;
in general the attribute list of every created Button element is the
synthesized `href` first, followed by the props in the enumeration order
of `Object.entries` — array-index keys first in ascending numeric order,
then the remaining keys in insertion order — which coincides with the
order of appearance in the props segment whenever no prop key is an
array index. -/
theorem C6_button_attribute_order :
    transformNode (.link "/x" [.text "[Label|a=1,b=2]"]) =
      .jsxEl "Button" [("href", "/x"), ("a", "1"), ("b", "2")] [.text "Label"]
    ∧ (∀ (bs : ButtonDescriptor) (href : String),
        createMdxButtonElement bs href =
          .jsxEl "Button" (("href", href) :: objEntries bs.props) [.text bs.text])
    ∧ (∀ props : List (String × String),
        (∀ p ∈ props, isArrayIndexKey p.1 = false) →
        objEntries props = props) :=
  ⟨rfl, fun _ _ => rfl, fun _ h => objEntries_eq_self h⟩

/-- Witness for C6, at the props of the `[Label|a=1,b=2]` example: the
keys `a` and `b` are not array indices, so the enumeration order is the
insertion order. -/
theorem C6_button_attribute_order_witness :
    (∀ p ∈ [("a", "1"), ("b", "2")], isArrayIndexKey (Prod.fst p) = false)
    ∧ objEntries [("a", "1"), ("b", "2")] = [("a", "1"), ("b", "2")] :=
  ⟨by decide, C6_button_attribute_order.2.2 [("a", "1"), ("b", "2")] (by decide)⟩

/-- C7: the transform changes nothing except matching bracket links — a
tree containing no matching link is returned equal to the input, and a
matching link among siblings is replaced by the Button element at its
original index, leaving the sibling count and every other sibling
unchanged. -/
theorem C7_pass_through_and_single_substitution :
    (∀ n : MNode, hasMatchingLink n = false → transformNode n = n)
    ∧ (∀ (ty url v : String) (l r rest : List MNode) (bs : ButtonDescriptor),
        extractButtonSyntaxFromDoubleBrackets v = some bs →
        hasMatchingLinkList l = false →
        hasMatchingLinkList r = false →
        transformNode (.node ty (l ++ .link url (.text v :: rest) :: r)) =
          .node ty (l ++ createMdxButtonElement bs url :: r)
        ∧ (l ++ createMdxButtonElement bs url :: r).length =
            (l ++ MNode.link url (.text v :: rest) :: r).length) := by
  refine ⟨transformNode_id, ?_⟩
  intro ty url v l r rest bs hbs hl hr
  constructor
  · have hmid : transformList (MNode.link url (.text v :: rest) :: r) =
        createMdxButtonElement bs url :: r := by
      show transformNode (MNode.link url (.text v :: rest)) :: transformList r = _
      rw [transformNode_link_button url v rest bs hbs, transformList_id r hr]
    simp only [transformNode]
    rw [transformList_append, transformList_id l hl, hmid]
  · simp [List.length_append]

/-- Witness for C7: a tree with no matching link passes through
unchanged, and in a three-sibling root the matching middle link is
replaced in place. -/
theorem C7_pass_through_and_single_substitution_witness :
    (hasMatchingLink (MNode.node "paragraph" [MNode.text "hi"]) = false
     ∧ transformNode (MNode.node "paragraph" [MNode.text "hi"]) =
         MNode.node "paragraph" [MNode.text "hi"])
    ∧ extractButtonSyntaxFromDoubleBrackets "[Go]" = some { text := "Go", props := [] }
    ∧ hasMatchingLinkList [MNode.text "before"] = false
    ∧ hasMatchingLinkList [MNode.node "paragraph" []] = false
    ∧ (transformNode (MNode.node "root"
        ([MNode.text "before"] ++
          MNode.link "/x" [MNode.text "[Go]"] :: [MNode.node "paragraph" []])) =
        MNode.node "root"
          ([MNode.text "before"] ++
            createMdxButtonElement { text := "Go", props := [] } "/x" ::
              [MNode.node "paragraph" []])
      ∧ ([MNode.text "before"] ++
          createMdxButtonElement { text := "Go", props := [] } "/x" ::
            [MNode.node "paragraph" []]).length =
        ([MNode.text "before"] ++
          MNode.link "/x" [MNode.text "[Go]"] :: [MNode.node "paragraph" []]).length) :=
  ⟨⟨rfl, C7_pass_through_and_single_substitution.1
      (MNode.node "paragraph" [MNode.text "hi"]) rfl⟩,
    rfl, rfl, rfl,
    C7_pass_through_and_single_substitution.2 "root" "/x" "[Go]"
      [MNode.text "before"] [MNode.node "paragraph" []] []
      { text := "Go", props := [] } rfl rfl rfl⟩

/-- C8: the malformed piece `bad` of `[Label|a=1,bad,c=3]` is dropped
while the well-formed pairs are kept, giving props `a=1, c=3`, and in
general any piece containing no `=` at all leaves the props object
unchanged rather than aborting the transform (within the embedding every
transform function is total, so no exception can propagate). -/
theorem C8_malformed_prop_tolerance :
    extractButtonSyntaxFromDoubleBrackets "[Label|a=1,bad,c=3]" =
      some { text := "Label", props := [("a", "1"), ("c", "3")] }
    ∧ ∀ (props : List (String × String)) (pair : List Char),
        splitOnChar '=' pair = [pair] →
        storePair props pair = props := by
  constructor
  · rfl
  · intro props pair h
    unfold storePair
    simp [h]

/-- Witness for C8, at the piece `bad` with props already holding
`a=1`. -/
theorem C8_malformed_prop_tolerance_witness :
    splitOnChar '=' ['b', 'a', 'd'] = [['b', 'a', 'd']]
    ∧ storePair [("a", "1")] ['b', 'a', 'd'] = [("a", "1")] :=
  ⟨rfl, C8_malformed_prop_tolerance.2 [("a", "1")] ['b', 'a', 'd'] rfl⟩

/-- C9: for a matching link with further children beyond its first text
child, the replacement Button element has exactly one text child holding
the parsed button text, and the extra children appear nowhere in the
replacement (the result does not depend on them at all). -/
theorem C9_extra_link_children_dropped :
    ∀ (url v : String) (rest : List MNode) (bs : ButtonDescriptor),
      extractButtonSyntaxFromDoubleBrackets v = some bs →
      transformNode (.link url (.text v :: rest)) = createMdxButtonElement bs url
      ∧ createMdxButtonElement bs url =
          .jsxEl "Button" (("href", url) :: objEntries bs.props) [.text bs.text] := by
  intro url v rest bs h
  exact ⟨transformNode_link_button url v rest bs h, rfl⟩

/-- Witness for C9, at a link carrying two extra children after the
matching text child. -/
theorem C9_extra_link_children_dropped_witness :
    extractButtonSyntaxFromDoubleBrackets "[Go]" = some { text := "Go", props := [] }
    ∧ (transformNode
        (.link "/x" [.text "[Go]", .text "extra", .link "/y" [.text "plain"]]) =
        createMdxButtonElement { text := "Go", props := [] } "/x"
      ∧ createMdxButtonElement { text := "Go", props := [] } "/x" =
          .jsxEl "Button" [("href", "/x")] [.text "Go"]) :=
  ⟨rfl, C9_extra_link_children_dropped "/x" "[Go]"
    [.text "extra", .link "/y" [.text "plain"]] { text := "Go", props := [] } rfl⟩

/-- C10: the single text child of every created Button element holds the
first capture group of the bracket grammar with surrounding whitespace
trimmed; in particular the link text `[ Click me ]` yields the button
text `Click me`. -/
theorem C10_button_text_is_trimmed_group1 :
    (∀ (url v g1 : String) (g2 : Option String) (rest : List MNode),
      matchBracketGrammar v = some (g1, g2) →
      transformNode (.link url (.text v :: rest)) =
        .jsxEl "Button" (("href", url) :: objEntries (parseCommaDelimitedProps g2))
          [.text (jsTrim g1)])
    ∧ matchBracketGrammar "[ Click me ]" = some (" Click me ", none)
    ∧ transformNode (.link "/x" [.text "[ Click me ]"]) =
        .jsxEl "Button" [("href", "/x")] [.text "Click me"] := by
  refine ⟨?_, rfl, rfl⟩
  intro url v g1 g2 rest h
  have hbs : extractButtonSyntaxFromDoubleBrackets v =
      some { text := jsTrim g1, props := parseCommaDelimitedProps g2 } := by
    unfold extractButtonSyntaxFromDoubleBrackets
    rw [h]
  rw [transformNode_link_button url v rest _ hbs]
  rfl

/-- Witness for C10, at the link text `[ Click me ]` (group 1 is
`" Click me "`, no props segment). -/
theorem C10_button_text_is_trimmed_group1_witness :
    matchBracketGrammar "[ Click me ]" = some (" Click me ", none)
    ∧ transformNode (.link "/x" [.text "[ Click me ]", .text "tail"]) =
        .jsxEl "Button" (("href", "/x") :: objEntries (parseCommaDelimitedProps none))
          [.text (jsTrim " Click me ")] :=
  ⟨rfl, C10_button_text_is_trimmed_group1.1 "/x" "[ Click me ]" " Click me " none
    [.text "tail"] rfl⟩

end Starter

